import Mathlib

/-!
Shallow embedding of the league ranking / scoring engine of the jogr
backend (`src/app.py`): the endpoint handler `compute_league_ranking`
(lines 175-229) with its inner scoring function `calculate_points`
(lines 189-207), the per-user grouping via an insertion-ordered
dictionary (lines 184-187), nickname resolution (lines 212-216) and the
final stable descending sort (line 224).

Modelling conventions: Python floats are modelled as exact rationals,
Python ints as `ℤ`.  Python 3 `round` rounds half to even (banker's
rounding); `pyRound` reproduces that on `ℚ`.  ISO-8601 date strings are
modelled as integer timestamps (`ℤ`); the ranking code never reads
them.  The Firestore nickname lookup (a document read that may miss, or
hold a document without a `nickname` field) is modelled as a function
`String → Option String`, `none` collapsing both miss cases.
-/

namespace Jogr

/-- Python 3 `round` on a rational: nearest integer, ties to even. -/
def pyRound (q : ℚ) : ℤ :=
  if q - ⌊q⌋ < 1/2 then ⌊q⌋
  else if 1/2 < q - ⌊q⌋ then ⌊q⌋ + 1
  else if ⌊q⌋ % 2 = 0 then ⌊q⌋ else ⌊q⌋ + 1

/-- One activity document of a league's `activities` sub-collection, as
consumed by `compute_league_ranking` (all fields present; the scoring
code reads `userID`, `distance`, `duration`, `elevation` and ignores
`date`). -/
structure ActivityRecord where
  userID : String
  distance : ℚ
  duration : ℚ
  elevation : ℚ
  date : ℤ
deriving DecidableEq, Repr

/-- `total_distance = sum(a["distance"] for a in user_activities)` (line 190). -/
def total_distance (l : List ActivityRecord) : ℚ :=
  (l.map (fun a => a.distance)).sum

/-- `total_duration = sum(a["duration"] for a in user_activities)` (line 191). -/
def total_duration (l : List ActivityRecord) : ℚ :=
  (l.map (fun a => a.duration)).sum

/-- `total_elevation = sum(a["elevation"] for a in user_activities)` (line 192). -/
def total_elevation (l : List ActivityRecord) : ℚ :=
  (l.map (fun a => a.elevation)).sum

/-- `num_runs = len(user_activities)` (line 193). -/
def num_runs (l : List ActivityRecord) : ℤ :=
  (l.length : ℤ)

/-- `longest_run = max((a["distance"] for a in user_activities), default=0)`
(line 194): the maximum of the distances, `0` for an empty bucket. -/
def longest_run (l : List ActivityRecord) : ℚ :=
  match l with
  | [] => 0
  | a :: t => (t.map (fun b => b.distance)).foldl max a.distance

/-- `avg_speed_kph = (total_duration > 0) and (total_distance / (total_duration / 60)) or 0`
(line 195).  The Python `and/or` idiom yields the division when the
guard holds and the division is non-zero, and `0` otherwise; as a value
this is the guarded division. -/
def avg_speed_kph (l : List ActivityRecord) : ℚ :=
  if 0 < total_duration l then total_distance l / (total_duration l / 60) else 0

/-- `avg_speed_kmpm = (avg_speed_kph > 0) and ((1 / avg_speed_kph) * 60) or 0`
(line 196): minutes per kilometre (average pace) when the speed is
positive, else `0`. -/
def avg_speed_kmpm (l : List ActivityRecord) : ℚ :=
  if 0 < avg_speed_kph l then (1 / avg_speed_kph l) * 60 else 0

/-- `score += min(100, round(total_distance * 1))` (line 199). -/
def distanceSubScore (l : List ActivityRecord) : ℤ :=
  min 100 (pyRound (total_distance l * 1))

/-- `score += min(50, round(max(0, (10 - avg_speed_kmpm) / 0.5) * 2))` (line 200). -/
def paceSubScore (l : List ActivityRecord) : ℤ :=
  min 50 (pyRound ((max 0 ((10 - avg_speed_kmpm l) / (1/2))) * 2))

/-- `score += min(50, num_runs * 5)` (line 201). -/
def runCountSubScore (l : List ActivityRecord) : ℤ :=
  min 50 (num_runs l * 5)

/-- `score += min(50, round(longest_run * 2))` (line 202). -/
def longestRunSubScore (l : List ActivityRecord) : ℤ :=
  min 50 (pyRound (longest_run l * 2))

/-- `score += min(50, round(total_elevation / 50))` (line 203). -/
def elevationSubScore (l : List ActivityRecord) : ℤ :=
  min 50 (pyRound (total_elevation l / 50))

/-- `score += min(50, round(total_duration / 10))` (line 204). -/
def durationSubScore (l : List ActivityRecord) : ℤ :=
  min 50 (pyRound (total_duration l / 10))

/-- `if num_runs >= 3: score += 20` (lines 205-206). -/
def consistencyBonus (l : List ActivityRecord) : ℤ :=
  if 3 ≤ num_runs l then 20 else 0

/-- `calculate_points(user_activities)` (lines 189-207): the sum of the
six capped sub-scores plus the consistency bonus, accumulated into
`score` in source order. -/
def calculate_points (l : List ActivityRecord) : ℤ :=
  distanceSubScore l + paceSubScore l + runCountSubScore l +
    longestRunSubScore l + elevationSubScore l + durationSubScore l +
    consistencyBonus l

/-- The key set of an insertion-ordered Python dict built by repeated
`user_data[k].append(...)` on a `defaultdict` (lines 184-187): each key
appears once, in order of first occurrence. -/
def dedupKeys (us : List String) : List String :=
  us.foldl (fun ks u => if u ∈ ks then ks else ks ++ [u]) []

/-- The iteration order of `user_data.items()` (line 210): the distinct
`a["userID"]` values in order of first occurrence (Python dicts preserve
insertion order). -/
def userKeys (acts : List ActivityRecord) : List String :=
  dedupKeys (acts.map (fun a => a.userID))

/-- The list `user_data[u]` (lines 186-187): the records of user `u` in
encounter order. -/
def bucketOf (acts : List ActivityRecord) (u : String) : List ActivityRecord :=
  acts.filter (fun a => a.userID == u)

/-- One element of the `ranking` list built at lines 218-222. -/
structure RankingEntry where
  userID : String
  points : ℤ
  nickname : String
deriving DecidableEq, Repr

/-- The ranking loop (lines 209-222): one entry per user of the grouped
dict, with points from `calculate_points` and the nickname from the
`users` document (`"Usuario"` when the document is missing or has no
`nickname` field, lines 212-216). -/
def rankingEntries (acts : List ActivityRecord) (nick : String → Option String) :
    List RankingEntry :=
  (userKeys acts).map (fun u =>
    { userID := u
      points := calculate_points (bucketOf acts u)
      nickname := (nick u).getD "Usuario" })

/-- One insertion step of a stable sort by points descending: the new
element goes in front of the first element whose points do not exceed
its own. -/
def insertEntry (x : RankingEntry) : List RankingEntry → List RankingEntry
  | [] => [x]
  | y :: ys => if y.points ≤ x.points then x :: y :: ys else y :: insertEntry x ys

/-- `ranking.sort(key=lambda x: x["points"], reverse=True)` (line 224):
a stable sort by points descending (Python's `list.sort` is stable, so
entries with equal points keep their relative order). -/
def sortByPointsDesc (l : List RankingEntry) : List RankingEntry :=
  l.foldr insertEntry []

/-- `compute_league_ranking` (lines 175-225), given the league's
activity list and the nickname lookup: group by user, score each
bucket, resolve nicknames, sort by points descending. -/
def compute_league_ranking (acts : List ActivityRecord)
    (nick : String → Option String) : List RankingEntry :=
  sortByPointsDesc (rankingEntries acts nick)

/-- The ranking endpoint as invoked with a `period` query parameter and
at a given clock time.  The handler `compute_league_ranking` declares no
`period` parameter and never reads the clock (lines 175-229); FastAPI
ignores unknown query parameters, so every period value and every
evaluation time yield the same full-set computation. -/
def compute_league_ranking_with_period (period : String) (now_utc : ℤ)
    (acts : List ActivityRecord) (nick : String → Option String) :
    List RankingEntry :=
  compute_league_ranking acts nick

/-!
Raw documents and the failure behaviour of the handler.  A Firestore
document is a dict; a field read `a["k"]` raises `KeyError` when the
field is absent.  `compute_league_ranking` wraps the whole computation
in one `try` (lines 180-229) whose `except` returns an error payload
instead of a ranking, so a raised `KeyError` aborts the whole request.
Raw documents are modelled with `Option` fields and the raising reads
with `Except`.
-/

/-- A league activity document as stored, before any field access:
every field may be absent. -/
structure RawRecord where
  userID : Option String
  distance : Option ℚ
  duration : Option ℚ
  elevation : Option ℚ
  date : Option ℤ
deriving DecidableEq, Repr

/-- A dict field access `a[name]`: the value, or a raised `KeyError`
when the field is absent. -/
def getField {α : Type} (o : Option α) (name : String) : Except String α :=
  match o with
  | some v => Except.ok v
  | none => Except.error ("KeyError: " ++ name)

/-- Sequential evaluation of a field read over a list of records (a
Python loop or generator): stops at the first raised exception. -/
def mapE {α β : Type} (f : α → Except String β) : List α → Except String (List β)
  | [] => Except.ok []
  | a :: t =>
    match f a with
    | Except.error e => Except.error e
    | Except.ok b =>
      match mapE f t with
      | Except.error e => Except.error e
      | Except.ok bs => Except.ok (b :: bs)

/-- The grouping loop (lines 185-187) on raw documents: reads
`a["userID"]` of every record (raising on a missing field) and yields
the distinct user ids in first-occurrence order. -/
def userKeysE (acts : List RawRecord) : Except String (List String) :=
  match mapE (fun a => getField a.userID "userID") acts with
  | Except.error e => Except.error e
  | Except.ok us => Except.ok (dedupKeys us)

/-- `calculate_points` on raw documents (lines 189-207): the
comprehensions read `a["distance"]`, `a["duration"]`, `a["elevation"]`
of every record of the bucket, raising on the first missing field;
with every field present the score is that of the plain records. -/
def calculate_pointsE (bucket : List RawRecord) : Except String ℤ :=
  match mapE (fun a => getField a.distance "distance") bucket with
  | Except.error e => Except.error e
  | Except.ok ds =>
    match mapE (fun a => getField a.duration "duration") bucket with
    | Except.error e => Except.error e
    | Except.ok ts =>
      match mapE (fun a => getField a.elevation "elevation") bucket with
      | Except.error e => Except.error e
      | Except.ok es =>
        Except.ok (calculate_points
          (((ds.zip ts).zip es).map (fun p => ⟨"", p.1.1, p.1.2, p.2, 0⟩)))

/-- The body of the ranking loop (lines 210-222) on raw documents: the
entry of one user, or the exception its bucket's scoring raises. -/
def rankingEntryE (acts : List RawRecord) (nick : String → Option String)
    (u : String) : Except String RankingEntry :=
  match calculate_pointsE (acts.filter (fun a => a.userID == some u)) with
  | Except.error e => Except.error e
  | Except.ok pts => Except.ok ⟨u, pts, (nick u).getD "Usuario"⟩

/-- `compute_league_ranking` on raw documents: the `try` body of lines
180-225; any raised `KeyError` is caught by the `except` (lines
227-229), which returns an error payload and no ranking. -/
def compute_league_rankingE (acts : List RawRecord)
    (nick : String → Option String) : Except String (List RankingEntry) :=
  match userKeysE acts with
  | Except.error e => Except.error e
  | Except.ok users =>
    match mapE (rankingEntryE acts nick) users with
    | Except.error e => Except.error e
    | Except.ok ranking => Except.ok (sortByPointsDesc ranking)


/-!  Helper lemmas: bounds of `pyRound` and of the sub-scores.  -/


theorem pyRound_nonneg {q : ℚ} (h : 0 ≤ q) : 0 ≤ pyRound q := by
  have hf : (0 : ℤ) ≤ ⌊q⌋ := Int.floor_nonneg.mpr h
  unfold pyRound
  split_ifs <;> omega

theorem pyRound_le {q : ℚ} {n : ℤ} (h : q ≤ (n : ℚ)) : pyRound q ≤ n := by
  have hfl : ⌊q⌋ ≤ n := by
    have h2 := Int.floor_le_floor h
    rwa [Int.floor_intCast] at h2
  unfold pyRound
  split_ifs with h1 h2 h3
  · exact hfl
  · have h1a := not_lt.mp h1
    have hq : (⌊q⌋ : ℚ) < (n : ℚ) := by linarith
    have hn : ⌊q⌋ < n := by exact_mod_cast hq
    omega
  · exact hfl
  · have h1a := not_lt.mp h1
    have hq : (⌊q⌋ : ℚ) < (n : ℚ) := by linarith
    have hn : ⌊q⌋ < n := by exact_mod_cast hq
    omega

theorem pyRound_ge {q : ℚ} {n : ℤ} (h : (n : ℚ) ≤ q) : n ≤ pyRound q := by
  have hf : n ≤ ⌊q⌋ := Int.le_floor.mpr h
  unfold pyRound
  split_ifs <;> omega

theorem total_distance_nonneg {l : List ActivityRecord}
    (h : ∀ a ∈ l, 0 ≤ a.distance) : 0 ≤ total_distance l := by
  apply List.sum_nonneg
  intro x hx
  simp only [List.mem_map] at hx
  obtain ⟨a, ha, rfl⟩ := hx
  exact h a ha

theorem total_duration_nonneg {l : List ActivityRecord}
    (h : ∀ a ∈ l, 0 ≤ a.duration) : 0 ≤ total_duration l := by
  apply List.sum_nonneg
  intro x hx
  simp only [List.mem_map] at hx
  obtain ⟨a, ha, rfl⟩ := hx
  exact h a ha

theorem total_elevation_nonneg {l : List ActivityRecord}
    (h : ∀ a ∈ l, 0 ≤ a.elevation) : 0 ≤ total_elevation l := by
  apply List.sum_nonneg
  intro x hx
  simp only [List.mem_map] at hx
  obtain ⟨a, ha, rfl⟩ := hx
  exact h a ha

theorem le_foldl_max (b : ℚ) (l : List ℚ) : b ≤ l.foldl max b := by
  induction l generalizing b with
  | nil => simp
  | cons x t ih =>
    simp only [List.foldl_cons]
    exact le_trans (le_max_left b x) (ih (max b x))

theorem longest_run_nonneg {l : List ActivityRecord}
    (h : ∀ a ∈ l, 0 ≤ a.distance) : 0 ≤ longest_run l := by
  cases l with
  | nil => simp [longest_run]
  | cons a t =>
    have h0 : 0 ≤ a.distance := h a (List.mem_cons_self a t)
    have h1 : a.distance ≤ (t.map (fun b => b.distance)).foldl max a.distance :=
      le_foldl_max _ _
    unfold longest_run
    linarith

theorem distanceSubScore_nonneg {l : List ActivityRecord}
    (h : ∀ a ∈ l, 0 ≤ a.distance) : 0 ≤ distanceSubScore l := by
  refine le_min (by norm_num) (pyRound_nonneg ?_)
  have := total_distance_nonneg h
  linarith

theorem paceSubScore_nonneg (l : List ActivityRecord) : 0 ≤ paceSubScore l := by
  refine le_min (by norm_num) (pyRound_nonneg ?_)
  exact mul_nonneg (le_max_left 0 _) (by norm_num)

theorem runCountSubScore_nonneg (l : List ActivityRecord) :
    0 ≤ runCountSubScore l := by
  refine le_min (by norm_num) ?_
  have : (0 : ℤ) ≤ (l.length : ℤ) := Int.ofNat_nonneg _
  unfold num_runs
  omega

theorem longestRunSubScore_nonneg {l : List ActivityRecord}
    (h : ∀ a ∈ l, 0 ≤ a.distance) : 0 ≤ longestRunSubScore l := by
  refine le_min (by norm_num) (pyRound_nonneg ?_)
  have := longest_run_nonneg h
  linarith

theorem elevationSubScore_nonneg {l : List ActivityRecord}
    (h : ∀ a ∈ l, 0 ≤ a.elevation) : 0 ≤ elevationSubScore l := by
  refine le_min (by norm_num) (pyRound_nonneg ?_)
  have := total_elevation_nonneg h
  positivity

theorem durationSubScore_nonneg {l : List ActivityRecord}
    (h : ∀ a ∈ l, 0 ≤ a.duration) : 0 ≤ durationSubScore l := by
  refine le_min (by norm_num) (pyRound_nonneg ?_)
  have := total_duration_nonneg h
  positivity

theorem consistencyBonus_bounds (l : List ActivityRecord) :
    0 ≤ consistencyBonus l ∧ consistencyBonus l ≤ 20 := by
  unfold consistencyBonus
  split_ifs <;> omega


/-!  Helper lemmas: the average-speed guards and the pace sub-score.  -/


theorem avg_speed_kph_pos {l : List ActivityRecord}
    (hd : 0 < total_duration l) (hx : 0 < total_distance l) :
    0 < avg_speed_kph l := by
  unfold avg_speed_kph
  rw [if_pos hd]
  positivity

theorem avg_speed_kmpm_eq {l : List ActivityRecord}
    (hd : 0 < total_duration l) (hx : 0 < total_distance l) :
    avg_speed_kmpm l = total_duration l / total_distance l := by
  have hk : avg_speed_kph l = total_distance l / (total_duration l / 60) := by
    unfold avg_speed_kph
    rw [if_pos hd]
  have hp := avg_speed_kph_pos hd hx
  unfold avg_speed_kmpm
  rw [if_pos hp, hk]
  field_simp
  ring

theorem avg_speed_zero_of_zero_duration {l : List ActivityRecord}
    (h : total_duration l = 0) : avg_speed_kph l = 0 ∧ avg_speed_kmpm l = 0 := by
  have h1 : avg_speed_kph l = 0 := by
    unfold avg_speed_kph
    rw [h]
    simp
  refine ⟨h1, ?_⟩
  unfold avg_speed_kmpm
  rw [h1]
  simp

theorem paceSubScore_le_of_kmpm_nonneg {l : List ActivityRecord}
    (h : 0 ≤ avg_speed_kmpm l) : paceSubScore l ≤ 40 := by
  have h2 : (10 - avg_speed_kmpm l) / (1/2) ≤ 20 := by
    rw [div_le_iff₀ (by norm_num : (0:ℚ) < 1/2)]
    linarith
  have h3 : max 0 ((10 - avg_speed_kmpm l) / (1/2)) ≤ 20 :=
    max_le (by norm_num) h2
  have h4 : (max 0 ((10 - avg_speed_kmpm l) / (1/2))) * 2 ≤ ((40 : ℤ) : ℚ) := by
    push_cast
    linarith
  exact le_trans (min_le_right _ _) (pyRound_le h4)

theorem paceSubScore_eq_zero_of_slow {l : List ActivityRecord}
    (h : 10 ≤ avg_speed_kmpm l) : paceSubScore l = 0 := by
  unfold paceSubScore
  have he : (10 - avg_speed_kmpm l) / (1/2) = (10 - avg_speed_kmpm l) * 2 := by
    ring
  have hm : max 0 ((10 - avg_speed_kmpm l) / (1/2)) = 0 := by
    rw [he]
    apply max_eq_left
    linarith
  rw [hm]
  norm_num [pyRound]

theorem paceSubScore_of_zero_duration {l : List ActivityRecord}
    (h : total_duration l = 0) : paceSubScore l = 40 := by
  obtain ⟨h1, h2⟩ := avg_speed_zero_of_zero_duration h
  unfold paceSubScore
  rw [h2]
  norm_num [pyRound]


/-!  Helper lemmas: membership, sortedness and stability of the sort.  -/


theorem mem_insertEntry {x z : RankingEntry} {l : List RankingEntry} :
    z ∈ insertEntry x l ↔ z = x ∨ z ∈ l := by
  induction l with
  | nil => simp [insertEntry]
  | cons y ys ih =>
    simp only [insertEntry]
    split_ifs with h
    · simp [List.mem_cons]
    · simp only [List.mem_cons, ih]
      tauto

theorem sortByPointsDesc_cons (x : RankingEntry) (l : List RankingEntry) :
    sortByPointsDesc (x :: l) = insertEntry x (sortByPointsDesc l) := rfl

theorem mem_sortByPointsDesc {z : RankingEntry} {l : List RankingEntry} :
    z ∈ sortByPointsDesc l ↔ z ∈ l := by
  induction l with
  | nil => simp [sortByPointsDesc]
  | cons y ys ih =>
    rw [sortByPointsDesc_cons, mem_insertEntry, ih]
    simp [List.mem_cons]

theorem insertEntry_pairwise_ge {x : RankingEntry} {l : List RankingEntry}
    (h : l.Pairwise (fun a b => b.points ≤ a.points)) :
    (insertEntry x l).Pairwise (fun a b => b.points ≤ a.points) := by
  induction l with
  | nil => simp [insertEntry]
  | cons y ys ih =>
    rw [List.pairwise_cons] at h
    obtain ⟨hy, hys⟩ := h
    simp only [insertEntry]
    split_ifs with hxy
    · refine List.Pairwise.cons ?_ (List.Pairwise.cons hy hys)
      intro z hz
      rcases List.mem_cons.mp hz with rfl | hz2
      · exact hxy
      · exact le_trans (hy z hz2) hxy
    · push_neg at hxy
      refine List.Pairwise.cons ?_ (ih hys)
      intro z hz
      rcases mem_insertEntry.mp hz with rfl | hz2
      · exact le_of_lt hxy
      · exact hy z hz2

theorem sortByPointsDesc_pairwise_ge (l : List RankingEntry) :
    (sortByPointsDesc l).Pairwise (fun a b => b.points ≤ a.points) := by
  induction l with
  | nil => simp [sortByPointsDesc]
  | cons y ys ih =>
    rw [sortByPointsDesc_cons]
    exact insertEntry_pairwise_ge ih

theorem insertEntry_pairwise_stable {R : RankingEntry → RankingEntry → Prop}
    {x : RankingEntry} {l : List RankingEntry}
    (hl : l.Pairwise (fun a b => b.points < a.points ∨ (a.points = b.points ∧ R a b)))
    (hx : ∀ y ∈ l, R x y) :
    (insertEntry x l).Pairwise
      (fun a b => b.points < a.points ∨ (a.points = b.points ∧ R a b)) := by
  induction l with
  | nil => simp [insertEntry]
  | cons y ys ih =>
    rw [List.pairwise_cons] at hl
    obtain ⟨hy, hys⟩ := hl
    simp only [insertEntry]
    split_ifs with hxy
    · refine List.Pairwise.cons ?_ (List.Pairwise.cons hy hys)
      intro z hz
      rcases List.mem_cons.mp hz with rfl | hz2
      · rcases lt_or_eq_of_le hxy with h2 | h2
        · exact Or.inl h2
        · exact Or.inr ⟨h2.symm, hx z (List.mem_cons_self z ys)⟩
      · rcases hy z hz2 with h2 | h2
        · exact Or.inl (lt_of_lt_of_le h2 hxy)
        · rcases lt_or_eq_of_le hxy with h3 | h3
          · exact Or.inl (by omega)
          · exact Or.inr ⟨by omega, hx z (List.mem_cons_of_mem y hz2)⟩
    · push_neg at hxy
      refine List.Pairwise.cons ?_ (ih hys (fun z hz => hx z (List.mem_cons_of_mem y hz)))
      intro z hz
      rcases mem_insertEntry.mp hz with rfl | hz2
      · exact Or.inl hxy
      · exact hy z hz2

theorem sortByPointsDesc_pairwise_stable
    {R : RankingEntry → RankingEntry → Prop} {l : List RankingEntry}
    (hl : l.Pairwise R) :
    (sortByPointsDesc l).Pairwise
      (fun a b => b.points < a.points ∨ (a.points = b.points ∧ R a b)) := by
  induction l with
  | nil => simp [sortByPointsDesc]
  | cons y ys ih =>
    rw [List.pairwise_cons] at hl
    obtain ⟨hy, hys⟩ := hl
    rw [sortByPointsDesc_cons]
    apply insertEntry_pairwise_stable (ih hys)
    intro z hz
    exact hy z (mem_sortByPointsDesc.mp hz)


/-!  Helper lemmas: insertion-ordered grouping and first-occurrence indices.  -/


/-- Proof-side recursion computing the keys `dedupKeys` appends after
having already seen `seen`. -/
def freshKeys (seen : List String) : List String → List String
  | [] => []
  | u :: t => if u ∈ seen then freshKeys seen t else u :: freshKeys (seen ++ [u]) t

theorem foldl_dedup_eq (us : List String) :
    ∀ ks0 : List String,
      us.foldl (fun ks u => if u ∈ ks then ks else ks ++ [u]) ks0 =
        ks0 ++ freshKeys ks0 us := by
  induction us with
  | nil =>
    intro ks0
    simp [freshKeys]
  | cons u t ih =>
    intro ks0
    simp only [List.foldl_cons, freshKeys]
    split_ifs with h
    · exact ih ks0
    · rw [ih (ks0 ++ [u]), List.append_assoc]
      simp

theorem dedupKeys_eq_freshKeys (us : List String) :
    dedupKeys us = freshKeys [] us := by
  unfold dedupKeys
  rw [foldl_dedup_eq]
  simp

theorem mem_freshKeys {v : String} : ∀ {us seen : List String},
    v ∈ freshKeys seen us → v ∉ seen ∧ v ∈ us := by
  intro us
  induction us with
  | nil =>
    intro seen h
    simp [freshKeys] at h
  | cons u t ih =>
    intro seen h
    simp only [freshKeys] at h
    split_ifs at h with hu
    · obtain ⟨h1, h2⟩ := ih h
      exact ⟨h1, List.mem_cons_of_mem _ h2⟩
    · rcases List.mem_cons.mp h with rfl | h2
      · exact ⟨hu, List.mem_cons_self _ _⟩
      · obtain ⟨h1, h3⟩ := ih h2
        have hv : v ∉ seen := fun hc => h1 (by simp [hc])
        exact ⟨hv, List.mem_cons_of_mem _ h3⟩

theorem mem_foldl_dedup {v : String} : ∀ {us ks0 : List String},
    v ∈ ks0 ∨ v ∈ us →
      v ∈ us.foldl (fun ks u => if u ∈ ks then ks else ks ++ [u]) ks0 := by
  intro us
  induction us with
  | nil =>
    intro ks0 h
    rcases h with h | h
    · simpa using h
    · simp at h
  | cons u t ih =>
    intro ks0 h
    simp only [List.foldl_cons]
    by_cases hu : u ∈ ks0
    · rw [if_pos hu]
      apply ih
      rcases h with h | h
      · exact Or.inl h
      · rcases List.mem_cons.mp h with rfl | h2
        · exact Or.inl hu
        · exact Or.inr h2
    · rw [if_neg hu]
      apply ih
      rcases h with h | h
      · exact Or.inl (by simp [h])
      · rcases List.mem_cons.mp h with rfl | h2
        · exact Or.inl (by simp)
        · exact Or.inr h2

theorem mem_dedupKeys_of_mem {v : String} {us : List String} (h : v ∈ us) :
    v ∈ dedupKeys us := by
  unfold dedupKeys
  exact mem_foldl_dedup (Or.inr h)

theorem mem_userKeys_of_mem {acts : List ActivityRecord} {a : ActivityRecord}
    (h : a ∈ acts) : a.userID ∈ userKeys acts := by
  unfold userKeys
  exact mem_dedupKeys_of_mem (List.mem_map_of_mem _ h)

/-- First-occurrence index of a value in a list of strings. -/
def firstIdxS (us : List String) (v : String) : ℕ :=
  us.findIdx (fun w => w == v)

/-- First-occurrence index of a user id in the league activity list. -/
def firstOccIdx (acts : List ActivityRecord) (u : String) : ℕ :=
  acts.findIdx (fun a => a.userID == u)

theorem firstIdxS_cons_self (u : String) (t : List String) :
    firstIdxS (u :: t) u = 0 := by
  simp [firstIdxS, List.findIdx_cons]

theorem firstIdxS_cons_ne {u v : String} (h : v ≠ u) (t : List String) :
    firstIdxS (u :: t) v = firstIdxS t v + 1 := by
  have hb : (u == v) = false := by
    simp [Ne.symm h]
  simp [firstIdxS, List.findIdx_cons, hb]

theorem firstOccIdx_eq_firstIdxS (acts : List ActivityRecord) (u : String) :
    firstOccIdx acts u = firstIdxS (acts.map (fun a => a.userID)) u := by
  induction acts with
  | nil => rfl
  | cons a t ih =>
    simp only [firstOccIdx, firstIdxS, List.map_cons, List.findIdx_cons] at ih ⊢
    cases hb : (a.userID == u) with
    | true => rfl
    | false => simp [ih]

theorem freshKeys_pairwise_firstIdx : ∀ (us seen : List String),
    (freshKeys seen us).Pairwise (fun v w => firstIdxS us v < firstIdxS us w) := by
  intro us
  induction us with
  | nil =>
    intro seen
    simp [freshKeys]
  | cons u t ih =>
    intro seen
    simp only [freshKeys]
    split_ifs with hu
    · refine (ih seen).imp_of_mem ?_
      intro a b ha hb hab
      have ha2 := mem_freshKeys ha
      have hb2 := mem_freshKeys hb
      have hau : a ≠ u := fun h => ha2.1 (h ▸ hu)
      have hbu : b ≠ u := fun h => hb2.1 (h ▸ hu)
      rw [firstIdxS_cons_ne hau, firstIdxS_cons_ne hbu]
      omega
    · refine List.Pairwise.cons ?_ ?_
      · intro b hb
        have hb2 := mem_freshKeys hb
        have hbu : b ≠ u := fun h => hb2.1 (by simp [h])
        rw [firstIdxS_cons_self, firstIdxS_cons_ne hbu]
        omega
      · refine (ih (seen ++ [u])).imp_of_mem ?_
        intro a b ha hb hab
        have ha2 := mem_freshKeys ha
        have hb2 := mem_freshKeys hb
        have hau : a ≠ u := fun h => ha2.1 (by simp [h])
        have hbu : b ≠ u := fun h => hb2.1 (by simp [h])
        rw [firstIdxS_cons_ne hau, firstIdxS_cons_ne hbu]
        omega

theorem userKeys_pairwise_firstOccIdx (acts : List ActivityRecord) :
    (userKeys acts).Pairwise (fun u v => firstOccIdx acts u < firstOccIdx acts v) := by
  unfold userKeys
  rw [dedupKeys_eq_freshKeys]
  refine (freshKeys_pairwise_firstIdx (acts.map (fun a => a.userID)) []).imp_of_mem ?_
  intro a b ha hb hab
  rw [firstOccIdx_eq_firstIdxS, firstOccIdx_eq_firstIdxS]
  exact hab


/-!  Helper lemmas: short-circuiting of raised field reads.  -/


theorem mapE_error_of_mem {α β : Type} {f : α → Except String β} {l : List α}
    {x : α} (hx : x ∈ l) (he : ∃ e, f x = Except.error e) :
    ∃ e, mapE f l = Except.error e := by
  induction l with
  | nil => cases hx
  | cons a t ih =>
    cases hfa : f a with
    | error e =>
      refine ⟨e, ?_⟩
      unfold mapE
      rw [hfa]
    | ok b =>
      rcases List.mem_cons.mp hx with rfl | hx2
      · obtain ⟨e, he2⟩ := he
        rw [he2] at hfa
        cases hfa
      · obtain ⟨e, hmap⟩ := ih hx2
        refine ⟨e, ?_⟩
        unfold mapE
        rw [hfa, hmap]

theorem mapE_ok_forall {α β : Type} {f : α → Except String β} :
    ∀ {l : List α} {bs : List β}, mapE f l = Except.ok bs →
      ∀ x ∈ l, ∃ b, f x = Except.ok b := by
  intro l
  induction l with
  | nil =>
    intro bs h x hx
    cases hx
  | cons a t ih =>
    intro bs h x hx
    unfold mapE at h
    cases hfa : f a with
    | error e =>
      rw [hfa] at h
      cases h
    | ok b =>
      rw [hfa] at h
      cases hmt : mapE f t with
      | error e =>
        rw [hmt] at h
        cases h
      | ok bs2 =>
        rcases List.mem_cons.mp hx with rfl | hx2
        · exact ⟨b, hfa⟩
        · exact ih hmt x hx2

theorem mapE_ok_mem {α β : Type} {f : α → Except String β} :
    ∀ {l : List α} {bs : List β}, mapE f l = Except.ok bs →
      ∀ {x : α} {b : β}, x ∈ l → f x = Except.ok b → b ∈ bs := by
  intro l
  induction l with
  | nil =>
    intro bs h x b hx
    cases hx
  | cons a t ih =>
    intro bs h x b hx hfx
    unfold mapE at h
    cases hfa : f a with
    | error e =>
      rw [hfa] at h
      cases h
    | ok c =>
      rw [hfa] at h
      cases hmt : mapE f t with
      | error e =>
        rw [hmt] at h
        cases h
      | ok bs2 =>
        rw [hmt] at h
        cases h
        rcases List.mem_cons.mp hx with rfl | hx2
        · rw [hfx] at hfa
          cases hfa
          exact List.mem_cons_self _ _
        · exact List.mem_cons_of_mem _ (ih hmt hx2 hfx)

theorem calculate_pointsE_error_of_missing {bucket : List RawRecord}
    {a : RawRecord} (ha : a ∈ bucket)
    (hm : a.distance = none ∨ a.duration = none ∨ a.elevation = none) :
    ∃ e, calculate_pointsE bucket = Except.error e := by
  unfold calculate_pointsE
  cases hds : mapE (fun a => getField a.distance "distance") bucket with
  | error e => exact ⟨e, rfl⟩
  | ok ds =>
    have hdsome : a.distance ≠ none := by
      intro hn
      obtain ⟨b, hb⟩ := mapE_ok_forall hds a ha
      rw [hn] at hb
      cases hb
    cases hts : mapE (fun a => getField a.duration "duration") bucket with
    | error e => exact ⟨e, rfl⟩
    | ok ts =>
      have htsome : a.duration ≠ none := by
        intro hn
        obtain ⟨b, hb⟩ := mapE_ok_forall hts a ha
        rw [hn] at hb
        cases hb
      cases hes : mapE (fun a => getField a.elevation "elevation") bucket with
      | error e => exact ⟨e, rfl⟩
      | ok es =>
        exfalso
        have hesome : a.elevation ≠ none := by
          intro hn
          obtain ⟨b, hb⟩ := mapE_ok_forall hes a ha
          rw [hn] at hb
          cases hb
        rcases hm with h | h | h
        · exact hdsome h
        · exact htsome h
        · exact hesome h


/-!  Helper lemma: a missing required field aborts the whole ranking.  -/


theorem compute_league_rankingE_error_of_missing {acts : List RawRecord}
    {nick : String → Option String} {a : RawRecord} (ha : a ∈ acts)
    (hm : a.userID = none ∨ a.distance = none ∨ a.duration = none ∨
      a.elevation = none) :
    ∃ e, compute_league_rankingE acts nick = Except.error e := by
  unfold compute_league_rankingE
  cases hus : userKeysE acts with
  | error e => exact ⟨e, rfl⟩
  | ok users =>
    unfold userKeysE at hus
    cases hmu : mapE (fun a => getField a.userID "userID") acts with
    | error e =>
      rw [hmu] at hus
      cases hus
    | ok us =>
      rw [hmu] at hus
      cases hus
      obtain ⟨u, hu⟩ : ∃ u, a.userID = some u := by
        obtain ⟨b, hb⟩ := mapE_ok_forall hmu a ha
        cases hau : a.userID with
        | none =>
          rw [hau] at hb
          cases hb
        | some u => exact ⟨u, rfl⟩
      have hm2 : a.distance = none ∨ a.duration = none ∨ a.elevation = none := by
        rcases hm with h | h
        · rw [h] at hu
          cases hu
        · exact h
      have hb2 : getField a.userID "userID" = Except.ok u := by
        rw [hu]
        rfl
      have humem : u ∈ us := mapE_ok_mem hmu ha hb2
      have hukeys : u ∈ dedupKeys us := mem_dedupKeys_of_mem humem
      have habucket : a ∈ acts.filter (fun x => x.userID == some u) := by
        rw [List.mem_filter]
        refine ⟨ha, ?_⟩
        rw [hu]
        exact beq_self_eq_true _
      obtain ⟨e, hce⟩ := calculate_pointsE_error_of_missing habucket hm2
      have hge : ∃ e2, rankingEntryE acts nick u = Except.error e2 := by
        refine ⟨e, ?_⟩
        unfold rankingEntryE
        rw [hce]
      obtain ⟨e2, hmap⟩ := mapE_error_of_mem hukeys hge
      refine ⟨e2, ?_⟩
      show (match mapE (rankingEntryE acts nick) (dedupKeys us) with
        | Except.error e => Except.error e
        | Except.ok ranking => Except.ok (sortByPointsDesc ranking)) = Except.error e2
      rw [hmap]


/-!  Helper lemmas: leaderboard membership and total-score bounds.  -/

theorem entry_mem_compute {acts : List ActivityRecord}
    (nick : String → Option String) {a : ActivityRecord} (ha : a ∈ acts) :
    (⟨a.userID, calculate_points (bucketOf acts a.userID),
      (nick a.userID).getD "Usuario"⟩ : RankingEntry) ∈
      compute_league_ranking acts nick := by
  unfold compute_league_ranking
  rw [mem_sortByPointsDesc]
  unfold rankingEntries
  exact List.mem_map_of_mem _ (mem_userKeys_of_mem ha)

theorem calculate_points_bounds {l : List ActivityRecord}
    (h : ∀ a ∈ l, 0 ≤ a.distance ∧ 0 ≤ a.duration ∧ 0 ≤ a.elevation) :
    0 ≤ calculate_points l ∧ calculate_points l ≤ 370 := by
  have hd : ∀ a ∈ l, 0 ≤ a.distance := fun a ha => (h a ha).1
  have ht : ∀ a ∈ l, 0 ≤ a.duration := fun a ha => (h a ha).2.1
  have he : ∀ a ∈ l, 0 ≤ a.elevation := fun a ha => (h a ha).2.2
  have h1 := distanceSubScore_nonneg hd
  have h2 := paceSubScore_nonneg l
  have h3 := runCountSubScore_nonneg l
  have h4 := longestRunSubScore_nonneg hd
  have h5 := elevationSubScore_nonneg he
  have h6 := durationSubScore_nonneg ht
  have h7 := consistencyBonus_bounds l
  have u1 : distanceSubScore l ≤ 100 := min_le_left _ _
  have u2 : paceSubScore l ≤ 50 := min_le_left _ _
  have u3 : runCountSubScore l ≤ 50 := min_le_left _ _
  have u4 : longestRunSubScore l ≤ 50 := min_le_left _ _
  have u5 : elevationSubScore l ≤ 50 := min_le_left _ _
  have u6 : durationSubScore l ≤ 50 := min_le_left _ _
  unfold calculate_points
  omega

theorem calculate_points_ge_five {l : List ActivityRecord} (hne : l ≠ [])
    (h : ∀ a ∈ l, 0 ≤ a.distance ∧ 0 ≤ a.duration ∧ 0 ≤ a.elevation) :
    5 ≤ calculate_points l := by
  have hd : ∀ a ∈ l, 0 ≤ a.distance := fun a ha => (h a ha).1
  have ht : ∀ a ∈ l, 0 ≤ a.duration := fun a ha => (h a ha).2.1
  have he : ∀ a ∈ l, 0 ≤ a.elevation := fun a ha => (h a ha).2.2
  have h1 := distanceSubScore_nonneg hd
  have h2 := paceSubScore_nonneg l
  have h4 := longestRunSubScore_nonneg hd
  have h5 := elevationSubScore_nonneg he
  have h6 := durationSubScore_nonneg ht
  have h7 := (consistencyBonus_bounds l).1
  have h3 : 5 ≤ runCountSubScore l := by
    have hlen : 1 ≤ l.length := List.length_pos.mpr hne
    have hlen2 : (1 : ℤ) ≤ (l.length : ℤ) := by exact_mod_cast hlen
    unfold runCountSubScore num_runs
    refine le_min (by norm_num) ?_
    omega
  unfold calculate_points
  omega


/-!  Claims C1 and C2: the worked example and the score bounds.  -/


/-- The bucket of the spec's worked example: two activities
`{distance:10, duration:60, elevation:100}` and
`{distance:5, duration:25, elevation:0}` of one user. -/
def c1Bucket : List ActivityRecord :=
  [⟨"user1", 10, 60, 100, 0⟩, ⟨"user1", 5, 25, 0, 0⟩]

/-- C1, counterexample: on the spec's example bucket the code's scoring
function does not return 109. -/
theorem c1_score_not_109 : calculate_points c1Bucket ≠ 109 := by
  have h : calculate_points c1Bucket = 72 := by
    norm_num [calculate_points, distanceSubScore, paceSubScore,
      runCountSubScore, longestRunSubScore, elevationSubScore,
      durationSubScore, consistencyBonus, total_distance, total_duration,
      total_elevation, num_runs, longest_run, avg_speed_kph, avg_speed_kmpm,
      pyRound, c1Bucket]
  rw [h]
  omega

/-- C1, amended: on the bucket with activities `{10,60,100}` and
`{5,25,0}` the scoring function returns 72: distance sub-score 15, pace
sub-score 17 (`round((10 - 85/15)/0.5*2)`), run-count sub-score 10,
longest-activity sub-score 20 (`min(50, round(2*10))`), elevation
sub-score 2 (`round(100/50)`), duration sub-score 8 (`round(8.5)`, ties
to even) and consistency bonus 0. -/
theorem c1_example_bucket_score :
    distanceSubScore c1Bucket = 15 ∧ paceSubScore c1Bucket = 17 ∧
    runCountSubScore c1Bucket = 10 ∧ longestRunSubScore c1Bucket = 20 ∧
    elevationSubScore c1Bucket = 2 ∧ durationSubScore c1Bucket = 8 ∧
    consistencyBonus c1Bucket = 0 ∧ calculate_points c1Bucket = 72 := by
  norm_num [calculate_points, distanceSubScore, paceSubScore,
    runCountSubScore, longestRunSubScore, elevationSubScore,
    durationSubScore, consistencyBonus, total_distance, total_duration,
    total_elevation, num_runs, longest_run, avg_speed_kph, avg_speed_kmpm,
    pyRound, c1Bucket]

/-- A bucket of three hard runs whose total score exceeds 310. -/
def c2Bucket : List ActivityRecord :=
  [⟨"user2", 200, 200, 1000, 0⟩, ⟨"user2", 200, 200, 1000, 0⟩,
    ⟨"user2", 200, 200, 1000, 0⟩]

/-- C2, counterexample: a bucket with non-negative fields whose total
score is 321, above both claimed upper bounds (310 and 230). -/
theorem c2_score_above_claimed_bound :
    (∀ a ∈ c2Bucket, 0 ≤ a.distance ∧ 0 ≤ a.duration ∧ 0 ≤ a.elevation) ∧
    310 < calculate_points c2Bucket := by
  constructor
  · decide
  · have h : calculate_points c2Bucket = 321 := by
      norm_num [calculate_points, distanceSubScore, paceSubScore,
        runCountSubScore, longestRunSubScore, elevationSubScore,
        durationSubScore, consistencyBonus, total_distance, total_duration,
        total_elevation, num_runs, longest_run, avg_speed_kph, avg_speed_kmpm,
        pyRound, c2Bucket]
    rw [h]
    omega

/-- C2, amended: for every bucket with non-negative distance, duration
and elevation fields the total score is an integer in `[0, 370]`
(the sum of the code's caps `100+50+50+50+50+50+20`) and never
negative. -/
theorem c2_score_bounded (l : List ActivityRecord)
    (h : ∀ a ∈ l, 0 ≤ a.distance ∧ 0 ≤ a.duration ∧ 0 ≤ a.elevation) :
    0 ≤ calculate_points l ∧ calculate_points l ≤ 370 :=
  calculate_points_bounds h

/-- C2, witness: the bounds hold at the concrete three-run bucket. -/
theorem c2_score_bounded_witness :
    0 ≤ calculate_points c2Bucket ∧ calculate_points c2Bucket ≤ 370 :=
  c2_score_bounded c2Bucket (by decide)


/-!  Claims C3 and C4: period filtering and the zero-duration bucket.  -/


/-- A record 8 days and some hours older than the evaluation time
`700000` (seconds): `0 < 700000 - 7*86400`. -/
def c3OldRecord : ActivityRecord := ⟨"user3", 5, 30, 0, 0⟩

/-- C3, counterexample: under period `"weekly"` a record strictly older
than seven days is still ranked — the handler has no weekly filter, so
the "includes exactly the records at most 7 days old" reading fails. -/
theorem c3_weekly_keeps_old_record :
    c3OldRecord.date < 700000 - 7 * 86400 ∧
    compute_league_ranking_with_period "weekly" 700000 [c3OldRecord]
      (fun _ => none) = [⟨"user3", 39, "Usuario"⟩] := by
  constructor
  · decide
  · norm_num [compute_league_ranking_with_period, compute_league_ranking,
      rankingEntries, userKeys, dedupKeys, bucketOf, sortByPointsDesc,
      insertEntry, calculate_points, distanceSubScore, paceSubScore,
      runCountSubScore, longestRunSubScore, elevationSubScore,
      durationSubScore, consistencyBonus, total_distance, total_duration,
      total_elevation, num_runs, longest_run, avg_speed_kph, avg_speed_kmpm,
      pyRound, c3OldRecord]

/-- C3, amended: the ranking computation ignores the period and the
clock entirely — every period value (weekly, general or unknown) and
every evaluation time produce the same leaderboard, on which every user
with a record of any age appears; the input collection is read, never
mutated or reordered. -/
theorem c3_period_never_filters (p q : String) (n m : ℤ)
    (acts : List ActivityRecord) (nick : String → Option String) :
    compute_league_ranking_with_period p n acts nick =
      compute_league_ranking_with_period q m acts nick ∧
    ∀ a ∈ acts, ∃ e ∈ compute_league_ranking_with_period p n acts nick,
      e.userID = a.userID := by
  constructor
  · rfl
  · intro a ha
    exact ⟨_, entry_mem_compute nick ha, rfl⟩

/-- C3, witness: at period `"weekly"`, clock `700000`, and the
single-old-record league, the leaderboard equals the `"general"` one at
another clock and carries the old record's user. -/
theorem c3_period_never_filters_witness :
    compute_league_ranking_with_period "weekly" 700000 [c3OldRecord]
        (fun _ => none) =
      compute_league_ranking_with_period "general" 0 [c3OldRecord]
        (fun _ => none) ∧
    ∃ e ∈ compute_league_ranking_with_period "weekly" 700000 [c3OldRecord]
      (fun _ => none), e.userID = "user3" := by
  have h := c3_period_never_filters "weekly" "general" 700000 0 [c3OldRecord]
    (fun _ => none)
  exact ⟨h.1, h.2 c3OldRecord (List.mem_cons_self _ _)⟩

/-- A bucket whose total duration is zero but distance is positive. -/
def c4Bucket : List ActivityRecord := [⟨"user4", 3, 0, 0, 0⟩]

/-- C4, counterexample: on a zero-total-duration bucket the pace
sub-score is not 0 — the degenerate pace value 0 feeds the formula
`min(50, round(max(0,(10-0)/0.5)*2)) = 40`. -/
theorem c4_zero_duration_pace_not_zero :
    total_duration c4Bucket = 0 ∧ paceSubScore c4Bucket ≠ 0 := by
  have h0 : total_duration c4Bucket = 0 := by
    norm_num [total_duration, c4Bucket]
  refine ⟨h0, ?_⟩
  rw [paceSubScore_of_zero_duration h0]
  omega

/-- C4, amended: for every bucket with total duration 0 the guarded
speed values are 0 (no division by zero is performed) and the pace
sub-score is 40, not 0. -/
theorem c4_zero_duration_pace (l : List ActivityRecord)
    (h : total_duration l = 0) :
    paceSubScore l = 40 ∧ avg_speed_kph l = 0 ∧ avg_speed_kmpm l = 0 := by
  obtain ⟨h1, h2⟩ := avg_speed_zero_of_zero_duration h
  exact ⟨paceSubScore_of_zero_duration h, h1, h2⟩

/-- C4, witness: the amended statement at the concrete zero-duration
bucket. -/
theorem c4_zero_duration_pace_witness :
    paceSubScore c4Bucket = 40 ∧ avg_speed_kph c4Bucket = 0 ∧
      avg_speed_kmpm c4Bucket = 0 :=
  c4_zero_duration_pace c4Bucket (by norm_num [total_duration, c4Bucket])


/-!  Claims C5 and C6: the pace formula and the longest-activity sub-score.  -/


/-- A single activity with average pace exactly 5 min/km. -/
def c5Bucket : List ActivityRecord := [⟨"user5", 1, 5, 0, 0⟩]

/-- C5, counterexample: at average pace 5.0 min/km the pace sub-score is
20, not the claimed 60 — the code interpolates against a 10 min/km
anchor with 4 points per min/km, not between 5.0 and 7.5. -/
theorem c5_pace_anchor_fails :
    0 < total_duration c5Bucket ∧ 0 < total_distance c5Bucket ∧
    total_duration c5Bucket / total_distance c5Bucket = 5 ∧
    paceSubScore c5Bucket = 20 ∧ paceSubScore c5Bucket ≠ 60 := by
  have h : paceSubScore c5Bucket = 20 := by
    norm_num [paceSubScore, total_distance, total_duration, avg_speed_kph,
      avg_speed_kmpm, pyRound, c5Bucket]
  refine ⟨by norm_num [total_duration, c5Bucket],
    by norm_num [total_distance, c5Bucket],
    by norm_num [total_duration, total_distance, c5Bucket], h, ?_⟩
  rw [h]
  omega

/-- C5, amended: for a bucket with positive total duration and distance,
letting `p` be the average pace in min/km, the pace sub-score equals
`min(50, round(max(0, (10 - p)/0.5) * 2))`; it is clamped to `[0, 40]`
(40, not 60, is the largest reachable value) and is 0 once `p ≥ 10`. -/
theorem c5_pace_formula (l : List ActivityRecord)
    (hd : 0 < total_duration l) (hx : 0 < total_distance l) :
    paceSubScore l = min 50 (pyRound
      ((max 0 ((10 - total_duration l / total_distance l) / (1/2))) * 2)) ∧
    0 ≤ paceSubScore l ∧ paceSubScore l ≤ 40 ∧
    (10 ≤ total_duration l / total_distance l → paceSubScore l = 0) := by
  have hk := avg_speed_kmpm_eq hd hx
  refine ⟨?_, paceSubScore_nonneg l, ?_, ?_⟩
  · unfold paceSubScore
    rw [hk]
  · apply paceSubScore_le_of_kmpm_nonneg
    rw [hk]
    exact le_of_lt (div_pos hd hx)
  · intro hp
    apply paceSubScore_eq_zero_of_slow
    rw [hk]
    exact hp

/-- C5, witness: the amended pace statement at the concrete
5-min/km bucket. -/
theorem c5_pace_formula_witness :
    paceSubScore c5Bucket = min 50 (pyRound
      ((max 0 ((10 - total_duration c5Bucket / total_distance c5Bucket) /
        (1/2))) * 2)) ∧
    0 ≤ paceSubScore c5Bucket ∧ paceSubScore c5Bucket ≤ 40 ∧
    (10 ≤ total_duration c5Bucket / total_distance c5Bucket →
      paceSubScore c5Bucket = 0) :=
  c5_pace_formula c5Bucket (by norm_num [total_duration, c5Bucket])
    (by norm_num [total_distance, c5Bucket])

/-- A bucket whose longest single distance is 7 km. -/
def c6Bucket : List ActivityRecord := [⟨"user6", 7, 50, 0, 0⟩]

/-- A bucket whose longest single distance is 15 km. -/
def c6wBucket : List ActivityRecord := [⟨"user6w", 15, 90, 0, 0⟩]

/-- C6, counterexample: with longest distance 7 km (in the claimed
`[5, 10)` step) the sub-score is 14, not the claimed step value 10 — the
code computes `min(50, round(2 * longest))`, which is linear between the
step anchors. -/
theorem c6_step_function_fails :
    longest_run c6Bucket = 7 ∧ longestRunSubScore c6Bucket = 14 ∧
    longestRunSubScore c6Bucket ≠ 10 := by
  have h : longestRunSubScore c6Bucket = 14 := by
    norm_num [longestRunSubScore, longest_run, pyRound, c6Bucket]
  refine ⟨by norm_num [longest_run, c6Bucket], h, ?_⟩
  rw [h]
  omega

/-- C6, amended: the longest-single-activity sub-score is
`min(50, round(2 * L))` for the longest single distance `L`; the claimed
steps survive as lower bounds (`L ≥ 15 → ≥ 30`, `L ≥ 10 → ≥ 20`,
`L ≥ 5 → ≥ 10`) and the value stays in `[0, 50]`, but between the
anchors it grows linearly instead of stepping. -/
theorem c6_longest_linear_bounds (l : List ActivityRecord)
    (h : ∀ a ∈ l, 0 ≤ a.distance) :
    longestRunSubScore l = min 50 (pyRound (longest_run l * 2)) ∧
    0 ≤ longestRunSubScore l ∧ longestRunSubScore l ≤ 50 ∧
    (15 ≤ longest_run l → 30 ≤ longestRunSubScore l) ∧
    (10 ≤ longest_run l → 20 ≤ longestRunSubScore l) ∧
    (5 ≤ longest_run l → 10 ≤ longestRunSubScore l) := by
  refine ⟨rfl, longestRunSubScore_nonneg h, min_le_left _ _, ?_, ?_, ?_⟩
  · intro hL
    refine le_min (by norm_num) (pyRound_ge ?_)
    push_cast
    linarith
  · intro hL
    refine le_min (by norm_num) (pyRound_ge ?_)
    push_cast
    linarith
  · intro hL
    refine le_min (by norm_num) (pyRound_ge ?_)
    push_cast
    linarith

/-- C6, witness: the amended statement at the concrete 15-km bucket. -/
theorem c6_longest_linear_bounds_witness :
    longestRunSubScore c6wBucket =
      min 50 (pyRound (longest_run c6wBucket * 2)) ∧
    0 ≤ longestRunSubScore c6wBucket ∧ longestRunSubScore c6wBucket ≤ 50 ∧
    (15 ≤ longest_run c6wBucket → 30 ≤ longestRunSubScore c6wBucket) ∧
    (10 ≤ longest_run c6wBucket → 20 ≤ longestRunSubScore c6wBucket) ∧
    (5 ≤ longest_run c6wBucket → 10 ≤ longestRunSubScore c6wBucket) :=
  c6_longest_linear_bounds c6wBucket (by decide)


/-!  Claim C7: the leaderboard is sorted by points descending.  -/



/-- Two users whose buckets score 150 (`u1`) and 109 (`u2`); `u2`'s
record comes first in the league list. -/
def c7Acts : List ActivityRecord :=
  [⟨"u2", 20, 200, 1200, 0⟩, ⟨"u1", 30, 300, 1750, 0⟩]

/-- C7: every computed leaderboard is in non-increasing order of points,
and on the concrete two-user league scoring 150 and 109 the 150-point
user is listed first. -/
theorem c7_sorted_descending :
    (∀ (acts : List ActivityRecord) (nick : String → Option String),
      (compute_league_ranking acts nick).Pairwise
        (fun a b => b.points ≤ a.points)) ∧
    compute_league_ranking c7Acts (fun _ => none) =
      [⟨"u1", 150, "Usuario"⟩, ⟨"u2", 109, "Usuario"⟩] := by
  constructor
  · intro acts nick
    exact sortByPointsDesc_pairwise_ge _
  · have hne : ("u1" : String) ≠ "u2" := by decide
    have hne2 : ("u2" : String) ≠ "u1" := by decide
    norm_num [compute_league_ranking, rankingEntries, userKeys, dedupKeys,
      bucketOf, sortByPointsDesc, insertEntry, calculate_points,
      distanceSubScore, paceSubScore, runCountSubScore, longestRunSubScore,
      elevationSubScore, durationSubScore, consistencyBonus, total_distance,
      total_duration, total_elevation, num_runs, longest_run, avg_speed_kph,
      avg_speed_kmpm, pyRound, c7Acts, hne, hne2, beq_iff_eq]


/-!  Claims C8, C9 and C10: failure atomicity, tie order, positive scores.  -/


/-- A raw league document lacking the `distance` field. -/
def c8BadRecord : RawRecord := ⟨some "user8", none, some 30, some 0, some 0⟩

/-- C8: a record missing a required field (`userID`, `distance`,
`duration` or `elevation`) makes the whole ranking computation raise,
so the caller receives an error payload and never a partial
leaderboard. -/
theorem c8_missing_field_fails_ranking (acts : List RawRecord)
    (nick : String → Option String) (a : RawRecord) (ha : a ∈ acts)
    (hm : a.userID = none ∨ a.distance = none ∨ a.duration = none ∨
      a.elevation = none) :
    (∃ e, compute_league_rankingE acts nick = Except.error e) ∧
    ∀ rk, compute_league_rankingE acts nick ≠ Except.ok rk := by
  obtain ⟨e, he⟩ := compute_league_rankingE_error_of_missing ha hm
  refine ⟨⟨e, he⟩, ?_⟩
  intro rk hok
  rw [he] at hok
  cases hok

/-- C8, witness: a league whose single record lacks `distance` yields an
error and no leaderboard. -/
theorem c8_missing_field_fails_ranking_witness :
    (∃ e, compute_league_rankingE [c8BadRecord] (fun _ => none) =
      Except.error e) ∧
    ∀ rk, compute_league_rankingE [c8BadRecord] (fun _ => none) ≠
      Except.ok rk :=
  c8_missing_field_fails_ranking [c8BadRecord] (fun _ => none) c8BadRecord
    (List.mem_cons_self _ _) (Or.inr (Or.inl rfl))

/-- Two distinct users with identical records, hence tied scores; `u2`'s
record comes first. -/
def c9Acts : List ActivityRecord :=
  [⟨"u2", 20, 200, 1200, 0⟩, ⟨"u1", 20, 200, 1200, 0⟩]

/-- C9: entries with equal points appear in first-occurrence order of
their user id in the league list (insertion-ordered grouping plus a
stable descending sort), and the leaderboard is a deterministic function
of the input: recomputation yields the identical list. -/
theorem c9_ties_in_first_occurrence_order (acts : List ActivityRecord)
    (nick : String → Option String) :
    (compute_league_ranking acts nick).Pairwise
      (fun a b => a.points = b.points →
        firstOccIdx acts a.userID < firstOccIdx acts b.userID) ∧
    compute_league_ranking acts nick = compute_league_ranking acts nick := by
  constructor
  · have hpre : (rankingEntries acts nick).Pairwise
        (fun e f => firstOccIdx acts e.userID < firstOccIdx acts f.userID) := by
      unfold rankingEntries
      rw [List.pairwise_map]
      exact userKeys_pairwise_firstOccIdx acts
    have hs := sortByPointsDesc_pairwise_stable hpre
    unfold compute_league_ranking
    refine hs.imp ?_
    intro a b hab hpts
    rcases hab with h | h
    · omega
    · exact h.2
  · rfl

/-- C9, witness: at the concrete tied two-user league (and nickname
lookup returning nothing) the tie-order and determinism statement
holds. -/
theorem c9_ties_in_first_occurrence_order_witness :
    (compute_league_ranking c9Acts (fun _ => none)).Pairwise
      (fun a b => a.points = b.points →
        firstOccIdx c9Acts a.userID < firstOccIdx c9Acts b.userID) ∧
    compute_league_ranking c9Acts (fun _ => none) =
      compute_league_ranking c9Acts (fun _ => none) :=
  c9_ties_in_first_occurrence_order c9Acts (fun _ => none)

/-- The league with a single all-zero activity record. -/
def c10ZeroBucket : List ActivityRecord := [⟨"user10", 0, 0, 0, 0⟩]

/-- C10: every user with at least one record in the league's set appears
on the leaderboard with at least 5 points (the run-count sub-score alone
contributes `min(50, 5*n) ≥ 5`), hence strictly positive; a single
all-zero record still scores positively. -/
theorem c10_every_user_scores_positively (acts : List ActivityRecord)
    (nick : String → Option String) (u : String)
    (h : ∀ a ∈ acts, 0 ≤ a.distance ∧ 0 ≤ a.duration ∧ 0 ≤ a.elevation)
    (hu : ∃ a ∈ acts, a.userID = u) :
    (∃ e ∈ compute_league_ranking acts nick,
      e.userID = u ∧ 5 ≤ e.points ∧ 0 < e.points) ∧
    0 < calculate_points c10ZeroBucket := by
  constructor
  · obtain ⟨a, ha, rfl⟩ := hu
    have hmem : a ∈ bucketOf acts a.userID := by
      rw [bucketOf, List.mem_filter]
      exact ⟨ha, beq_self_eq_true _⟩
    have hne := List.ne_nil_of_mem hmem
    have h5 : 5 ≤ calculate_points (bucketOf acts a.userID) := by
      apply calculate_points_ge_five hne
      intro b hb
      exact h b (List.mem_of_mem_filter hb)
    exact ⟨_, entry_mem_compute nick ha, rfl, h5,
      lt_of_lt_of_le (by norm_num) h5⟩
  · have h45 : calculate_points c10ZeroBucket = 45 := by
      norm_num [calculate_points, distanceSubScore, paceSubScore,
        runCountSubScore, longestRunSubScore, elevationSubScore,
        durationSubScore, consistencyBonus, total_distance, total_duration,
        total_elevation, num_runs, longest_run, avg_speed_kph, avg_speed_kmpm,
        pyRound, c10ZeroBucket]
    omega

/-- C10, witness: the all-zero single-record league ranks its user with
a positive score of at least 5. -/
theorem c10_every_user_scores_positively_witness :
    (∃ e ∈ compute_league_ranking c10ZeroBucket (fun _ => none),
      e.userID = "user10" ∧ 5 ≤ e.points ∧ 0 < e.points) ∧
    0 < calculate_points c10ZeroBucket :=
  c10_every_user_scores_positively c10ZeroBucket (fun _ => none) "user10"
    (by decide) ⟨⟨"user10", 0, 0, 0, 0⟩, List.mem_cons_self _ _, rfl⟩

end Jogr
